import Mathlib

/-!
Verification development for the `imaged` image-deduplication engine.

The Go sources are shallowly embedded: 64-bit unsigned hashes become `ℕ`
(all values stay below 2^64 by construction), `float64` arithmetic on the
similarity/score paths becomes exact `ℚ` arithmetic (on those paths every
source computation is exact dyadic/decimal arithmetic), and the quality
kernels, which use `math.Sqrt`, are embedded over `ℝ`.  Buckets and Go maps
become association lists with overwrite-on-put semantics.
-/

namespace Imaged

/-- PerceptualHashes mirrors `api.PerceptualHashes`: four 64-bit hash values,
zero meaning "not computed". -/
structure PerceptualHashes where
  aHash : ℕ
  pHash : ℕ
  dHash : ℕ
  wHash : ℕ
deriving DecidableEq, Repr

/-- ImageQuality mirrors `api.ImageQuality` (float64 fields embedded as `ℚ`). -/
structure ImageQuality where
  sharpness : ℚ
  noise : ℚ
  exposure : ℚ
  contrast : ℚ
  compression : ℚ
  colorCast : ℚ
  finalScore : ℚ
deriving DecidableEq, Repr

/-- ImageMetadata keeps the `api.ImageMetadata` fields the verified code paths
read (path, content digest, dimensions, size, modification time). -/
structure ImageMetadata where
  path : String
  sizeBytes : ℤ
  width : ℕ
  height : ℕ
  modifiedAt : ℤ
  sha256 : String
deriving DecidableEq, Repr

/-- ImageFingerprint mirrors `api.ImageFingerprint` (ids are opaque strings). -/
structure ImageFingerprint where
  id : String
  metadata : ImageMetadata
  pHashes : PerceptualHashes
  quality : ImageQuality
deriving DecidableEq, Repr

/-- zeroFingerprint is the Go zero value of `api.ImageFingerprint`, produced by
a map lookup on a missing key. -/
def zeroFingerprint : ImageFingerprint :=
  { id := ""
    metadata := { path := "", sizeBytes := 0, width := 0, height := 0, modifiedAt := 0, sha256 := "" }
    pHashes := { aHash := 0, pHash := 0, dHash := 0, wHash := 0 }
    quality := { sharpness := 0, noise := 0, exposure := 0, contrast := 0, compression := 0,
                 colorCast := 0, finalScore := 0 } }

/-- popCount counts the set bits of a natural number; it is the loop
`for xor != 0 { distance++; xor &= xor - 1 }` of the Go sources. -/
def popCount : ℕ → ℕ
  | 0 => 0
  | n + 1 => (n + 1) % 2 + popCount ((n + 1) / 2)
decreasing_by exact Nat.div_lt_self (Nat.succ_pos n) (by omega)

/-- hammingDistance embeds `hammingDistance` from the similarity package. -/
def hammingDistance (a b : ℕ) : ℕ := popCount (a ^^^ b)

theorem popCount_zero : popCount 0 = 0 := by
  simp [popCount]

theorem hammingDistance_self (a : ℕ) : hammingDistance a a = 0 := by
  simp [hammingDistance, Nat.xor_self, popCount_zero]

theorem hammingDistance_comm (a b : ℕ) : hammingDistance a b = hammingDistance b a := by
  simp [hammingDistance, Nat.xor_comm]

/-! ## Similarity comparator (`similarity.Comparator`, part_006) -/

/-- ComparatorConfig mirrors `similarity.ComparatorConfig`. -/
structure ComparatorConfig where
  minSimilarity : ℚ
  aHashWeight : ℚ
  pHashWeight : ℚ
  dHashWeight : ℚ
  wHashWeight : ℚ
deriving DecidableEq, Repr

/-- newComparatorConfig embeds `NewComparator`: when all four weights are zero
the defaults 0.2 / 0.4 / 0.3 / 0.1 are installed. -/
def newComparatorConfig (cfg : ComparatorConfig) : ComparatorConfig :=
  if cfg.aHashWeight + cfg.pHashWeight + cfg.dHashWeight + cfg.wHashWeight = 0 then
    { cfg with aHashWeight := 1/5, pHashWeight := 2/5, dHashWeight := 3/10, wHashWeight := 1/10 }
  else cfg

/-- engineComparatorConfig is the comparator the engine constructs in
`NewEngine` (`MinSimilarity: 0.8`, weights left zero, hence the defaults). -/
def engineComparatorConfig : ComparatorConfig :=
  newComparatorConfig
    { minSimilarity := 4/5, aHashWeight := 0, pHashWeight := 0, dHashWeight := 0, wHashWeight := 0 }

/-- compareAHash embeds `Comparator.compareAHash`. -/
def compareAHash (hash1 hash2 : ℕ) : ℚ :=
  max 0 (1 - (hammingDistance hash1 hash2 : ℚ) / 64)

/-- comparePHash embeds `Comparator.comparePHash` with its bias branches. -/
def comparePHash (hash1 hash2 : ℕ) : ℚ :=
  let similarity : ℚ := 1 - (hammingDistance hash1 hash2 : ℚ) / 64
  if similarity > 9/10 then similarity
  else if similarity > 7/10 then similarity * (9/10)
  else similarity * (8/10)

/-- compareDHash embeds `Comparator.compareDHash`. -/
def compareDHash (hash1 hash2 : ℕ) : ℚ :=
  1 - (hammingDistance hash1 hash2 : ℚ) / 64

/-- compareWHash embeds `Comparator.compareWHash` with its boost branch. -/
def compareWHash (hash1 hash2 : ℕ) : ℚ :=
  let similarity : ℚ := 1 - (hammingDistance hash1 hash2 : ℚ) / 64
  if similarity > 6/10 then min 1 (similarity * (11/10))
  else similarity

/-- kindAccum is one `if weight > 0 && h1 != 0 && h2 != 0` accumulation block of
`CompareFingerprints`; the pair carries (totalSimilarity, totalWeight). -/
def kindAccum (w : ℚ) (h1 h2 : ℕ) (f : ℕ → ℕ → ℚ) (acc : ℚ × ℚ) : ℚ × ℚ :=
  if 0 < w ∧ h1 ≠ 0 ∧ h2 ≠ 0 then (acc.1 + f h1 h2 * w, acc.2 + w) else acc

/-- compareFingerprints embeds `Comparator.CompareFingerprints`, keeping the Go
signature `(float64, error)` as `Except String ℚ`; both source return sites
carry a nil error. -/
def compareFingerprints (cfg : ComparatorConfig) (fp1 fp2 : ImageFingerprint) :
    Except String ℚ :=
  let a1 := kindAccum cfg.aHashWeight fp1.pHashes.aHash fp2.pHashes.aHash compareAHash (0, 0)
  let a2 := kindAccum cfg.pHashWeight fp1.pHashes.pHash fp2.pHashes.pHash comparePHash a1
  let a3 := kindAccum cfg.dHashWeight fp1.pHashes.dHash fp2.pHashes.dHash compareDHash a2
  let a4 := kindAccum cfg.wHashWeight fp1.pHashes.wHash fp2.pHashes.wHash compareWHash a3
  if a4.2 = 0 then Except.ok 0
  else Except.ok (max 0 (min 1 (a4.1 / a4.2)))

/-- compareVal extracts the similarity value; errors (which never occur) map
to 0. -/
def compareVal (cfg : ComparatorConfig) (fp1 fp2 : ImageFingerprint) : ℚ :=
  match compareFingerprints cfg fp1 fp2 with
  | Except.ok v => v
  | Except.error _ => 0

theorem compareFingerprints_isOk (cfg : ComparatorConfig) (fp1 fp2 : ImageFingerprint) :
    ∃ v, compareFingerprints cfg fp1 fp2 = Except.ok v := by
  unfold compareFingerprints
  dsimp only
  split
  · exact ⟨0, rfl⟩
  · exact ⟨_, rfl⟩

theorem compareFingerprints_eq_ok (cfg : ComparatorConfig) (fp1 fp2 : ImageFingerprint) :
    compareFingerprints cfg fp1 fp2 = Except.ok (compareVal cfg fp1 fp2) := by
  obtain ⟨v, hv⟩ := compareFingerprints_isOk cfg fp1 fp2
  unfold compareVal
  rw [hv]

theorem compareAHash_self (h : ℕ) : compareAHash h h = 1 := by
  norm_num [compareAHash, hammingDistance_self]

theorem comparePHash_self (h : ℕ) : comparePHash h h = 1 := by
  norm_num [comparePHash, hammingDistance_self]

theorem compareDHash_self (h : ℕ) : compareDHash h h = 1 := by
  norm_num [compareDHash, hammingDistance_self]

theorem compareWHash_self (h : ℕ) : compareWHash h h = 1 := by
  norm_num [compareWHash, hammingDistance_self]

/-- fpOnlyA is a fingerprint carrying only an a_hash, used as concrete input. -/
def fpOnlyA : ImageFingerprint :=
  { zeroFingerprint with pHashes := { aHash := 1, pHash := 0, dHash := 0, wHash := 0 } }

theorem compareVal_same_hashes (fp1 fp2 : ImageFingerprint)
    (hsame : fp1.pHashes = fp2.pHashes)
    (h : fp1.pHashes.aHash ≠ 0 ∨ fp1.pHashes.pHash ≠ 0 ∨ fp1.pHashes.dHash ≠ 0 ∨
      fp1.pHashes.wHash ≠ 0) :
    compareVal engineComparatorConfig fp1 fp2 = 1 := by
  have hcfg : engineComparatorConfig =
      { minSimilarity := 4/5, aHashWeight := 1/5, pHashWeight := 2/5,
        dHashWeight := 3/10, wHashWeight := 1/10 } := by
    norm_num [engineComparatorConfig, newComparatorConfig]
  unfold compareVal compareFingerprints
  rw [hcfg, ← hsame]
  by_cases ha : fp1.pHashes.aHash = 0 <;>
    by_cases hp : fp1.pHashes.pHash = 0 <;>
      by_cases hd : fp1.pHashes.dHash = 0 <;>
        by_cases hw : fp1.pHashes.wHash = 0 <;>
          simp_all [kindAccum, compareAHash_self, comparePHash_self, compareDHash_self,
            compareWHash_self] <;> norm_num

/-- C7: for every fingerprint with at least one non-zero perceptual hash, the
engine comparator's weighted similarity of the fingerprint with itself is
exactly 1, including through the p_hash and w_hash bias branches. -/
theorem self_similarity_one (fp : ImageFingerprint)
    (h : fp.pHashes.aHash ≠ 0 ∨ fp.pHashes.pHash ≠ 0 ∨ fp.pHashes.dHash ≠ 0 ∨
      fp.pHashes.wHash ≠ 0) :
    compareVal engineComparatorConfig fp fp = 1 :=
  compareVal_same_hashes fp fp rfl h

/-- Witness for C7 at the concrete fingerprint `fpOnlyA`. -/
theorem self_similarity_one_witness :
    fpOnlyA.pHashes.aHash ≠ 0 ∧ compareVal engineComparatorConfig fpOnlyA fpOnlyA = 1 :=
  ⟨by decide, self_similarity_one fpOnlyA (Or.inl (by decide))⟩

/-- C10: fingerprint comparison is a total function of its arguments: it always
returns its similarity value with a nil error, and never an error, so the
error-skip branches in the grouping and near-duplicate callers are
unreachable. -/
theorem compareFingerprints_never_errors (cfg : ComparatorConfig)
    (fp1 fp2 : ImageFingerprint) :
    compareFingerprints cfg fp1 fp2 = Except.ok (compareVal cfg fp1 fp2) ∧
      ∀ e, compareFingerprints cfg fp1 fp2 ≠ Except.error e := by
  refine ⟨compareFingerprints_eq_ok cfg fp1 fp2, fun e he => ?_⟩
  rw [compareFingerprints_eq_ok cfg fp1 fp2] at he
  exact Except.noConfusion he

/-! ## Engine hash kernels (`Engine.computeAHash` / `computePHash` / `computeWHash`,
part_014).  Each kernel is embedded as a function of the pixel buffer it reads
after the resize / grayscale steps, in row-major order. -/

/-- engineComputePHash embeds `Engine.computePHash`: the input is the 32×32
luminance matrix (values in [0,1]) flattened row-major, exactly the code's
`values` slice.  Contrary to its doc comment the code applies no DCT: it
thresholds every raw pixel (the (0,0) "DC" position included) against the
global mean and sets bit `i % 64`. -/
def phashBitStep (average : ℚ) (h : ℕ) (iv : ℕ × ℚ) : ℕ :=
  if iv.2 > average then h ||| (1 <<< (iv.1 % 64)) else h

def engineComputePHash (values : List ℚ) : ℕ :=
  let sum := values.foldl (· + ·) 0
  let average := sum / (values.length : ℚ)
  values.enum.foldl (phashBitStep average) 0

/-- engineComputeAHash embeds `Engine.computeAHash`: the input is the 8×8
grayscale pixel list, each pixel the integer `(r+g+b)/3` on the 16-bit RGBA
scale; `average` uses integer division as in Go. -/
def engineComputeAHash (pixels : List ℕ) : ℕ :=
  let sum := pixels.foldl (· + ·) 0
  let average := sum / pixels.length
  pixels.enum.foldl
    (fun h ip => if ip.2 > average then h ||| (1 <<< ip.1) else h) 0

/-- engineComputeWHash embeds `Engine.computeWHash`, which is literally
`return e.computeAHash(img)` ("Fallback to AHash for now"). -/
def engineComputeWHash (pixels : List ℕ) : ℕ := engineComputeAHash pixels

/-- pVals63 is the 32×32 luminance matrix whose only bright pixel sits at
row-major index 63 (row 1, column 31): 63 zeros, one 1.0, then 960 zeros. -/
def pVals63 : List ℚ := List.replicate 63 0 ++ (1 : ℚ) :: List.replicate 960 0

/-- aPix63 is the 8×8 pixel list whose only bright pixel sits at index 63. -/
def aPix63 : List ℕ := List.replicate 63 0 ++ [65535]

set_option maxRecDepth 100000

theorem foldl_add_replicate_zero (n : ℕ) (a : ℚ) :
    (List.replicate n (0 : ℚ)).foldl (· + ·) a = a := by
  induction n generalizing a with
  | zero => rfl
  | succ n ih => simp [List.replicate, ih]

theorem foldl_phash_replicate_zero (avg : ℚ) (h0 : ¬ ((0 : ℚ) > avg)) (n : ℕ) :
    ∀ (s h : ℕ),
      (List.enumFrom s (List.replicate n (0 : ℚ))).foldl (phashBitStep avg) h = h := by
  induction n with
  | zero => intro s h; rfl
  | succ n ih => intro s h; simp [List.replicate, List.enumFrom, phashBitStep, h0, ih]

/-- C1: `Engine.computePHash` violates the claimed DCT scheme.  On the 32×32
luminance matrix with a single bright pixel at row-major index 63 the computed
hash is 2^63, i.e. bit 63 is set, whereas the claimed packing (DCT, DC term
skipped, 63 bits packed from bit 0) forces bit 63 = 0 on every image. -/
theorem engine_phash_bit63_set :
    pVals63.length = 1024 ∧ engineComputePHash pVals63 = 2 ^ 63 ∧
      Nat.testBit (engineComputePHash pVals63) 63 = true := by
  have hlen : pVals63.length = 1024 := by
    rw [pVals63, List.length_append, List.length_replicate, List.length_cons,
      List.length_replicate]
  have hsum : pVals63.foldl (· + ·) 0 = 1 := by
    rw [pVals63, List.foldl_append, foldl_add_replicate_zero, List.foldl_cons,
      foldl_add_replicate_zero]
    norm_num
  have h0 : ¬ ((0 : ℚ) > 1 / 1024) := by norm_num
  have h1 : ((1 : ℚ) > 1 / 1024) := by norm_num
  have hmain : engineComputePHash pVals63 = 2 ^ 63 := by
    unfold engineComputePHash
    rw [hsum, hlen]
    show (List.enumFrom 0 pVals63).foldl (phashBitStep ((1 : ℚ) / ((1024 : ℕ) : ℚ))) 0 = 2 ^ 63
    have havg : (1 : ℚ) / ((1024 : ℕ) : ℚ) = 1 / 1024 := by norm_num
    rw [havg]
    rw [pVals63, List.enumFrom_append, List.foldl_append,
      foldl_phash_replicate_zero _ h0, List.length_replicate]
    show (List.enumFrom (0 + 63) ((1 : ℚ) :: List.replicate 960 0)).foldl
      (phashBitStep (1 / 1024)) 0 = 2 ^ 63
    rw [List.enumFrom, List.foldl_cons, foldl_phash_replicate_zero _ h0]
    rw [phashBitStep, if_pos h1]
    decide
  exact ⟨hlen, hmain, by rw [hmain]; decide⟩

/-- C2: `Engine.computeWHash` performs no wavelet decomposition: it returns
`Engine.computeAHash` unchanged, and on the 8×8 pixel list with a single
bright pixel at index 63 the hash is 2^63 with bit 63 set, whereas the claimed
scheme (Haar decomposition to an 8×8 approximation, DC skipped, packing as for
p_hash) forces bit 63 = 0 on every image. -/
theorem engine_whash_is_ahash :
    (∀ pixels, engineComputeWHash pixels = engineComputeAHash pixels) ∧
      aPix63.length = 64 ∧ engineComputeWHash aPix63 = 2 ^ 63 ∧
      Nat.testBit (engineComputeWHash aPix63) 63 = true :=
  ⟨fun _ => rfl, by decide⟩

/-! ## Index stores (`index.BoltStore`, boltdb.go; `index.MemoryStore`, part_004).
Buckets and Go maps become association lists; `Put` overwrites the entry of an
existing key in place or appends a new one. -/

def putAssoc {κ ν : Type} [DecidableEq κ] : List (κ × ν) → κ → ν → List (κ × ν)
  | [], k, x => [(k, x)]
  | (k', x') :: rest, k, x =>
    if k' = k then (k, x) :: rest else (k', x') :: putAssoc rest k x

def getAssoc {κ ν : Type} [DecidableEq κ] : List (κ × ν) → κ → Option ν
  | [], _ => none
  | (k', x') :: rest, k => if k' = k then some x' else getAssoc rest k

theorem getAssoc_putAssoc_self {κ ν : Type} [DecidableEq κ]
    (m : List (κ × ν)) (k : κ) (v : ν) : getAssoc (putAssoc m k v) k = some v := by
  induction m with
  | nil => simp [putAssoc, getAssoc]
  | cons kv rest ih =>
    by_cases h : kv.1 = k
    · simp [putAssoc, getAssoc, h]
    · simp [putAssoc, getAssoc, h, ih]

theorem getAssoc_putAssoc_ne {κ ν : Type} [DecidableEq κ]
    (m : List (κ × ν)) (k k' : κ) (v : ν) (hne : k' ≠ k) :
    getAssoc (putAssoc m k v) k' = getAssoc m k' := by
  have hkk : k ≠ k' := fun h => hne h.symm
  induction m with
  | nil => simp [putAssoc, getAssoc, hkk]
  | cons kv rest ih =>
    obtain ⟨k0, v0⟩ := kv
    by_cases h : k0 = k
    · subst h
      simp [putAssoc, getAssoc, hkk]
    · by_cases h' : k0 = k' <;> simp [putAssoc, getAssoc, h, h', ih, hne]

/-- BoltVal distinguishes the two byte formats the Go code writes into bucket
values: `raw` is a bare image id (written by `SaveFingerprint` into the sha256
and path buckets); `list` is a JSON-encoded id list (written by
`updateHashIndex`).  `json.Unmarshal` into `[]ImageID` succeeds only on the
`list` form; a bare id is not valid JSON, so the reader falls back to the
single-id branch. -/
inductive BoltVal where
  | raw : String → BoltVal
  | list : List String → BoltVal
deriving DecidableEq, Repr

/-- BoltState models the buckets of `BoltStore` that the fingerprint
operations touch.  The perceptual-hash buckets are keyed by the hash value
itself (the Go key `fmt.Sprintf("%016x", hash)` is injective on 64-bit
values). -/
structure BoltState where
  fingerprints : List (String × ImageFingerprint)
  sha256Index : List (String × BoltVal)
  pathIndex : List (String × BoltVal)
  ahashIndex : List (ℕ × List String)
  phashIndex : List (ℕ × List String)
  dhashIndex : List (ℕ × List String)
  whashIndex : List (ℕ × List String)
deriving DecidableEq, Repr

def boltEmpty : BoltState :=
  { fingerprints := [], sha256Index := [], pathIndex := [],
    ahashIndex := [], phashIndex := [], dhashIndex := [], whashIndex := [] }

/-- boltUpdateHashIndex embeds `BoltStore.updateHashIndex`: zero hashes are
skipped; otherwise the id is appended to the bucket's id list unless already
present. -/
def boltUpdateHashIndex (idx : List (ℕ × List String)) (hash : ℕ) (imageID : String) :
    List (ℕ × List String) :=
  if hash = 0 then idx
  else
    let images := (getAssoc idx hash).getD []
    if imageID ∈ images then idx
    else putAssoc idx hash (images ++ [imageID])

/-- boltSaveFingerprint embeds `BoltStore.SaveFingerprint`: the primary record
and the path/sha256 entries are overwritten under the *new* keys (a bare id is
stored, not a list), the four hash indices get the id appended; nothing is
removed. -/
def boltSaveFingerprint (st : BoltState) (fp : ImageFingerprint) : BoltState :=
  { fingerprints := putAssoc st.fingerprints fp.id fp
    sha256Index := putAssoc st.sha256Index fp.metadata.sha256 (BoltVal.raw fp.id)
    pathIndex := putAssoc st.pathIndex fp.metadata.path (BoltVal.raw fp.id)
    ahashIndex := boltUpdateHashIndex st.ahashIndex fp.pHashes.aHash fp.id
    phashIndex := boltUpdateHashIndex st.phashIndex fp.pHashes.pHash fp.id
    dhashIndex := boltUpdateHashIndex st.dhashIndex fp.pHashes.dHash fp.id
    whashIndex := boltUpdateHashIndex st.whashIndex fp.pHashes.wHash fp.id }

/-- boltFindBySHA256 embeds `BoltStore.FindBySHA256`: on a `raw` value the
JSON unmarshal fails and the backward-compatibility branch treats the bytes as
a single id; each id present in the fingerprints bucket is appended. -/
def boltFindBySHA256 (st : BoltState) (hash : String) : List ImageFingerprint :=
  match getAssoc st.sha256Index hash with
  | none => []
  | some v =>
    let imageIDs : List String :=
      match v with
      | BoltVal.list l => l
      | BoltVal.raw i => [i]
    imageIDs.foldl
      (fun acc i =>
        match getAssoc st.fingerprints i with
        | some fp => acc ++ [fp]
        | none => acc) []

/-- MemoryState models `index.MemoryStore`: three Go maps, each keeping a
single id per key. -/
structure MemoryState where
  fingerprints : List (String × ImageFingerprint)
  sha256Index : List (String × String)
  pathIndex : List (String × String)
deriving DecidableEq, Repr

def memEmpty : MemoryState := { fingerprints := [], sha256Index := [], pathIndex := [] }

/-- memSaveFingerprint embeds `MemoryStore.SaveFingerprint`: three map writes,
each overwriting the previous entry of the same key. -/
def memSaveFingerprint (st : MemoryState) (fp : ImageFingerprint) : MemoryState :=
  { fingerprints := putAssoc st.fingerprints fp.id fp
    sha256Index := putAssoc st.sha256Index fp.metadata.sha256 fp.id
    pathIndex := putAssoc st.pathIndex fp.metadata.path fp.id }

/-- memFindBySHA256 embeds `MemoryStore.FindBySHA256`: it returns at most one
fingerprint, the one whose id the single-valued sha256 map holds. -/
def memFindBySHA256 (st : MemoryState) (hash : String) : List ImageFingerprint :=
  match getAssoc st.sha256Index hash with
  | none => []
  | some i =>
    match getAssoc st.fingerprints i with
    | none => []
    | some fp => [fp]

/-- fpA and fpB are two fingerprints with distinct ids and the same digest. -/
def fpA : ImageFingerprint :=
  { zeroFingerprint with
    id := "a"
    metadata := { zeroFingerprint.metadata with sha256 := "s" } }

def fpB : ImageFingerprint :=
  { zeroFingerprint with
    id := "b"
    metadata := { zeroFingerprint.metadata with sha256 := "s" } }

def boltStateAB : BoltState := boltSaveFingerprint (boltSaveFingerprint boltEmpty fpA) fpB

def memStateAB : MemoryState := memSaveFingerprint (memSaveFingerprint memEmpty fpA) fpB

/-- C3 counterexample: after saving fpA (id "a") and then fpB (id "b"), both
with digest "s", FindBySHA256("s") returns only [fpB] on both the BoltDB and
the in-memory store — the first fingerprint is dropped, refuting "a query for
that digest returns both fingerprints". -/
theorem findBySHA256_drops_first :
    fpA.id ≠ fpB.id ∧ fpA.metadata.sha256 = "s" ∧ fpB.metadata.sha256 = "s" ∧
      boltFindBySHA256 boltStateAB "s" = [fpB] ∧
      memFindBySHA256 memStateAB "s" = [fpB] ∧
      ∀ fp ∈ boltFindBySHA256 boltStateAB "s", fp.id ≠ fpA.id := by
  refine ⟨by decide, rfl, rfl, rfl, rfl, ?_⟩
  intro fp hfp
  have : fp = fpB := by
    have h : boltFindBySHA256 boltStateAB "s" = [fpB] := rfl
    rw [h] at hfp
    simpa using hfp
  rw [this]
  decide

/-- C3 amended: `find_by_sha256` returns exactly the fingerprint most recently
saved with that digest: both stores keep a single id per digest, and each save
overwrites it. -/
theorem findBySHA256_returns_latest (bst : BoltState) (mst : MemoryState)
    (fp : ImageFingerprint) :
    boltFindBySHA256 (boltSaveFingerprint bst fp) fp.metadata.sha256 = [fp] ∧
      memFindBySHA256 (memSaveFingerprint mst fp) fp.metadata.sha256 = [fp] := by
  constructor
  · unfold boltFindBySHA256 boltSaveFingerprint
    rw [getAssoc_putAssoc_self]
    simp [getAssoc_putAssoc_self]
  · unfold memFindBySHA256 memSaveFingerprint
    rw [getAssoc_putAssoc_self]
    simp [getAssoc_putAssoc_self]

/-- fpV1 and fpV2 share the id "i" but differ in path, digest and hashes. -/
def fpV1 : ImageFingerprint :=
  { id := "i"
    metadata := { zeroFingerprint.metadata with path := "p1", sha256 := "s1" }
    pHashes := { aHash := 1, pHash := 3, dHash := 5, wHash := 7 }
    quality := zeroFingerprint.quality }

def fpV2 : ImageFingerprint :=
  { id := "i"
    metadata := { zeroFingerprint.metadata with path := "p2", sha256 := "s2" }
    pHashes := { aHash := 2, pHash := 4, dHash := 6, wHash := 8 }
    quality := zeroFingerprint.quality }

def boltStateResave : BoltState := boltSaveFingerprint (boltSaveFingerprint boltEmpty fpV1) fpV2

/-- C4 counterexample: after re-saving id "i" with a new path, digest and
hashes, the old path key "p1" and old digest key "s1" still map to "i", and
the old a_hash bucket 1 still lists "i", even though the current primary
record for "i" has path "p2", digest "s2" and a_hash 2 — orphaned secondary
entries survive the save. -/
theorem save_keeps_stale_entries :
    getAssoc boltStateResave.fingerprints "i" = some fpV2 ∧
      fpV2.metadata.path = "p2" ∧ fpV2.metadata.sha256 = "s2" ∧ fpV2.pHashes.aHash = 2 ∧
      getAssoc boltStateResave.pathIndex "p1" = some (BoltVal.raw "i") ∧
      getAssoc boltStateResave.sha256Index "s1" = some (BoltVal.raw "i") ∧
      "i" ∈ (getAssoc boltStateResave.ahashIndex 1).getD [] := by
  refine ⟨rfl, rfl, rfl, rfl, rfl, rfl, ?_⟩
  show "i" ∈ (getAssoc boltStateResave.ahashIndex 1).getD []
  have h : (getAssoc boltStateResave.ahashIndex 1).getD [] = ["i"] := rfl
  rw [h]
  exact List.mem_singleton.mpr rfl

theorem mem_boltUpdateHashIndex (idx : List (ℕ × List String)) (hash : ℕ) (imageID : String)
    (hh : hash ≠ 0) :
    imageID ∈ (getAssoc (boltUpdateHashIndex idx hash imageID) hash).getD [] := by
  unfold boltUpdateHashIndex
  rw [if_neg hh]
  by_cases hm : imageID ∈ (getAssoc idx hash).getD []
  · rw [if_pos hm]
    exact hm
  · rw [if_neg hm, getAssoc_putAssoc_self]
    simp

/-- C4 amended: a successful save installs correct secondary entries for the
*new* record's keys — the current path, digest and every non-zero hash map to
the saved id, and the primary record equals the saved fingerprint — but stale
entries under the previous record's keys are not removed (see the
counterexample), so "every secondary entry agrees with the current primary"
fails after a re-save with changed keys. -/
theorem save_installs_current_keys (st : BoltState) (fp : ImageFingerprint) :
    getAssoc (boltSaveFingerprint st fp).fingerprints fp.id = some fp ∧
      getAssoc (boltSaveFingerprint st fp).sha256Index fp.metadata.sha256 =
        some (BoltVal.raw fp.id) ∧
      getAssoc (boltSaveFingerprint st fp).pathIndex fp.metadata.path =
        some (BoltVal.raw fp.id) ∧
      (fp.pHashes.aHash ≠ 0 →
        fp.id ∈ (getAssoc (boltSaveFingerprint st fp).ahashIndex fp.pHashes.aHash).getD []) ∧
      (fp.pHashes.pHash ≠ 0 →
        fp.id ∈ (getAssoc (boltSaveFingerprint st fp).phashIndex fp.pHashes.pHash).getD []) ∧
      (fp.pHashes.dHash ≠ 0 →
        fp.id ∈ (getAssoc (boltSaveFingerprint st fp).dhashIndex fp.pHashes.dHash).getD []) ∧
      (fp.pHashes.wHash ≠ 0 →
        fp.id ∈ (getAssoc (boltSaveFingerprint st fp).whashIndex fp.pHashes.wHash).getD []) := by
  unfold boltSaveFingerprint
  refine ⟨getAssoc_putAssoc_self _ _ _, getAssoc_putAssoc_self _ _ _,
    getAssoc_putAssoc_self _ _ _, ?_, ?_, ?_, ?_⟩ <;>
    exact fun hh => mem_boltUpdateHashIndex _ _ _ hh

/-- Witness for C4's amended theorem at the empty store and `fpV1`, whose four
hashes are all non-zero, so every implication fires. -/
theorem save_installs_current_keys_witness :
    getAssoc (boltSaveFingerprint boltEmpty fpV1).fingerprints fpV1.id = some fpV1 ∧
      fpV1.pHashes.aHash ≠ 0 ∧
      fpV1.id ∈
        (getAssoc (boltSaveFingerprint boltEmpty fpV1).ahashIndex fpV1.pHashes.aHash).getD [] :=
  ⟨(save_installs_current_keys boltEmpty fpV1).1, by decide,
    (save_installs_current_keys boltEmpty fpV1).2.2.2.1 (by decide)⟩

/-! ## Quality score calculator weights (`quality.ScoreCalculator`,
score_calculator.go).  The `map[string]float64` of weights becomes an
association list of rationals. -/

/-- sumWeights is the total the Go code accumulates by ranging over the map. -/
def sumWeights (w : List (String × ℚ)) : ℚ := (w.map (·.2)).sum

/-- setWeights embeds `ScoreCalculator.SetWeights`: it stores the given map
unchanged (`sc.weights = weights`); nothing is normalized. -/
def setWeights (_current w : List (String × ℚ)) : List (String × ℚ) := w

/-- normalizeWeights embeds `ScoreCalculator.NormalizeWeights`: when the total
is non-zero every weight is divided by it; a zero total leaves the map
untouched. -/
def normalizeWeights (w : List (String × ℚ)) : List (String × ℚ) :=
  let total := sumWeights w
  if total = 0 then w else w.map (fun kv => (kv.1, kv.2 / total))

/-- defaultWeights is the map installed by `NewScoreCalculator`. -/
def defaultWeights : List (String × ℚ) :=
  [("sharpness", 3/10), ("noise", 1/4), ("exposure", 1/5),
   ("contrast", 3/20), ("compression", 1/20), ("color_cast", 1/20)]

/-- C9 counterexample: `SetWeights` performs no renormalization: after
`set_weights` with the non-empty map ("sharpness" ↦ 2) the stored weights sum
to 2, which is not within 10⁻⁹ of 1. -/
theorem setWeights_not_normalized :
    sumWeights (setWeights defaultWeights [("sharpness", 2)]) = 2 ∧
      ¬ |sumWeights (setWeights defaultWeights [("sharpness", 2)]) - 1| ≤ 1 / 1000000000 := by
  constructor
  · norm_num [setWeights, sumWeights]
  · norm_num [setWeights, sumWeights]

/-- C9 amended: `SetWeights` stores the override unchanged, so the stored
weights sum to 1 (within any tolerance) only after a subsequent explicit
`NormalizeWeights` call, and only when the stored total is non-zero; then the
sum is exactly 1. -/
theorem sumWeights_map_div (w : List (String × ℚ)) (t : ℚ) :
    sumWeights (w.map (fun kv => (kv.1, kv.2 / t))) = sumWeights w / t := by
  unfold sumWeights
  rw [List.map_map]
  induction w with
  | nil => simp
  | cons kv rest ih => simp [ih, add_div]

theorem normalizeWeights_sums_to_one (current w : List (String × ℚ))
    (h : sumWeights w ≠ 0) :
    sumWeights (normalizeWeights (setWeights current w)) = 1 ∧
      |sumWeights (normalizeWeights (setWeights current w)) - 1| ≤ 1 / 1000000000 := by
  have hsum : sumWeights (normalizeWeights (setWeights current w)) = 1 := by
    unfold setWeights normalizeWeights
    dsimp only
    rw [if_neg h, sumWeights_map_div]
    exact div_self h
  exact ⟨hsum, by rw [hsum]; norm_num⟩

/-- Witness for C9's amended theorem at the override ("sharpness" ↦ 2). -/
theorem normalizeWeights_sums_to_one_witness :
    sumWeights [("sharpness", (2 : ℚ))] ≠ 0 ∧
      sumWeights (normalizeWeights (setWeights defaultWeights [("sharpness", 2)])) = 1 :=
  ⟨by norm_num [sumWeights],
    (normalizeWeights_sums_to_one defaultWeights [("sharpness", 2)]
      (by norm_num [sumWeights])).1⟩

/-! ## Engine duplicate grouping (`Engine.FindExactDuplicates` /
`Engine.FindNearDuplicates` / helpers, part_014). -/

/-- SelectionPolicy mirrors `api.SelectionPolicy`. -/
inductive SelectionPolicy where
  | highestQuality
  | highestResolution
  | bestExposure
  | oldest
  | newest
deriving DecidableEq, Repr

/-- DuplicateGroup mirrors `api.DuplicateGroup`. -/
structure DuplicateGroup where
  groupID : String
  mainImage : String
  duplicateIDs : List String
  reason : String
  confidence : ℚ
deriving DecidableEq, Repr

/-- calculateImageScore embeds `Engine.calculateImageScore`. -/
def calculateImageScore (fp : ImageFingerprint) : SelectionPolicy → ℚ
  | SelectionPolicy.highestQuality => fp.quality.finalScore
  | SelectionPolicy.highestResolution => ((fp.metadata.width * fp.metadata.height : ℕ) : ℚ)
  | SelectionPolicy.bestExposure => 1 - |fp.quality.exposure - 1/2| * 2
  | SelectionPolicy.oldest => -(fp.metadata.modifiedAt : ℚ)
  | SelectionPolicy.newest => (fp.metadata.modifiedAt : ℚ)

/-- fpFind models the lookup in the `fpMap` Go map built by inserting every
fingerprint keyed by id (a later insert overwrites, hence the reverse). -/
def fpFind (fps : List ImageFingerprint) (i : String) : Option ImageFingerprint :=
  fps.reverse.find? (fun fp => fp.id == i)

/-- fpMapGet is `fpMap[id]` including the Go zero value on a missing key. -/
def fpMapGet (fps : List ImageFingerprint) (i : String) : ImageFingerprint :=
  (fpFind fps i).getD zeroFingerprint

/-- selectStep is one iteration of the selection loop in
`Engine.selectBestImage`: missing ids are skipped, a strictly higher score
replaces the current best. -/
def selectStep (fps : List ImageFingerprint) (policy : SelectionPolicy)
    (acc : String × ℚ) (imgID : String) : String × ℚ :=
  match fpFind fps imgID with
  | none => acc
  | some fp =>
    let score := calculateImageScore fp policy
    if score > acc.2 then (imgID, score) else acc

/-- selectBestImage embeds `Engine.selectBestImage`; the seed score uses the
map lookup without an existence check, as the Go code does. -/
def selectBestImage (images : List String) (fps : List ImageFingerprint)
    (policy : SelectionPolicy) : String :=
  match images with
  | [] => ""
  | best0 :: restImages =>
    (restImages.foldl (selectStep fps policy)
      (best0, calculateImageScore (fpMapGet fps best0) policy)).1

/-- removeElement embeds `Engine.removeElement` (keep every item different
from the element, in order). -/
def removeElement (slice : List String) (element : String) : List String :=
  slice.filter (fun item => item ≠ element)

/-- confInner is one inner-loop iteration of
`Engine.calculateGroupConfidence`: both ids must be present in the map and the
comparison must not error for the pair to count. -/
def confInner (fps : List ImageFingerprint) (i : String) (acc : ℚ × ℕ) (j : String) : ℚ × ℕ :=
  match fpFind fps i, fpFind fps j with
  | some fp1, some fp2 =>
    (match compareFingerprints engineComparatorConfig fp1 fp2 with
      | Except.ok s => (acc.1 + s, acc.2 + 1)
      | Except.error _ => acc)
  | _, _ => acc

/-- confLoop is the double loop over index pairs i < j of
`Engine.calculateGroupConfidence`, threading (totalSimilarity, comparisons). -/
def confLoop (fps : List ImageFingerprint) : List String → ℚ × ℕ → ℚ × ℕ
  | [], acc => acc
  | i :: rest, acc => confLoop fps rest (rest.foldl (confInner fps i) acc)

/-- calculateGroupConfidence embeds `Engine.calculateGroupConfidence`. -/
def calculateGroupConfidence (images : List String) (fps : List ImageFingerprint) : ℚ :=
  if images.length < 2 then 0
  else
    let r := confLoop fps images (0, 0)
    if r.2 = 0 then 0 else r.1 / (r.2 : ℚ)

/-- collectSimilar is the inner loop of `Engine.FindNearDuplicates`: scan the
later fingerprints, skip processed ids, mark and collect those whose
similarity reaches the threshold.  It returns (collected ids, updated
processed set). -/
def collectSimilar (θ : ℚ) (fp1 : ImageFingerprint) :
    List ImageFingerprint → List String → List String × List String
  | [], processed => ([], processed)
  | fp2 :: rest, processed =>
    if fp2.id ∈ processed then collectSimilar θ fp1 rest processed
    else
      match compareFingerprints engineComparatorConfig fp1 fp2 with
      | Except.error _ => collectSimilar θ fp1 rest processed
      | Except.ok s =>
        if s ≥ θ then
          let r := collectSimilar θ fp1 rest (processed ++ [fp2.id])
          (fp2.id :: r.1, r.2)
        else collectSimilar θ fp1 rest processed

/-- nearLoop is the outer loop of `Engine.FindNearDuplicates`; `fps` is the
full fingerprint list (used for selection and confidence), `l` the remaining
tail being iterated. -/
def nearLoop (θ : ℚ) (fps : List ImageFingerprint) :
    List ImageFingerprint → List String → ℕ → List DuplicateGroup
  | [], _, _ => []
  | fp1 :: rest, processed, counter =>
    if fp1.id ∈ processed then nearLoop θ fps rest processed counter
    else
      let r := collectSimilar θ fp1 rest (processed ++ [fp1.id])
      let similarImages := fp1.id :: r.1
      if 1 < similarImages.length then
        { groupID := "near_" ++ toString counter
          mainImage := selectBestImage similarImages fps SelectionPolicy.highestQuality
          duplicateIDs := removeElement similarImages
            (selectBestImage similarImages fps SelectionPolicy.highestQuality)
          reason := "near"
          confidence := calculateGroupConfidence similarImages fps } ::
          nearLoop θ fps rest r.2 (counter + 1)
      else nearLoop θ fps rest r.2 counter

/-- findNearDuplicates embeds `Engine.FindNearDuplicates`. -/
def findNearDuplicates (fps : List ImageFingerprint) (θ : ℚ) : List DuplicateGroup :=
  nearLoop θ fps fps [] 0

/-- upsertAppend models one `hashGroups[sha] = append(hashGroups[sha], id)`
step of `Engine.FindExactDuplicates`. -/
def upsertAppend (m : List (String × List String)) (k : String) (v : String) :
    List (String × List String) :=
  match m with
  | [] => [(k, [v])]
  | (k', vs) :: rest =>
    if k' = k then (k', vs ++ [v]) :: rest else (k', vs) :: upsertAppend rest k v

/-- hashGroups partitions a fingerprint list by sha256, as an association list
in first-appearance order (the Go map's iteration order is unspecified; any
order gives the same group id-sets). -/
def hashGroups (fps : List ImageFingerprint) : List (String × List String) :=
  fps.foldl (fun m fp => upsertAppend m fp.metadata.sha256 fp.id) []

/-- exactLoop emits one group per sha256 class of size ≥ 2, as in
`Engine.FindExactDuplicates`. -/
def exactLoop (fps : List ImageFingerprint) :
    List (String × List String) → ℕ → List DuplicateGroup
  | [], _ => []
  | entry :: rest, counter =>
    if 1 < entry.2.length then
      { groupID := "exact_" ++ toString counter
        mainImage := selectBestImage entry.2 fps SelectionPolicy.highestQuality
        duplicateIDs := removeElement entry.2
          (selectBestImage entry.2 fps SelectionPolicy.highestQuality)
        reason := "exact"
        confidence := 1 } :: exactLoop fps rest (counter + 1)
    else exactLoop fps rest counter

/-- findExactDuplicates embeds `Engine.FindExactDuplicates`. -/
def findExactDuplicates (fps : List ImageFingerprint) : List DuplicateGroup :=
  exactLoop fps (hashGroups fps) 0

/-- groupMemberIDs is a group's id-set: the main image together with the
duplicate ids. -/
def groupMemberIDs (g : DuplicateGroup) : List String := g.mainImage :: g.duplicateIDs

theorem selectBestImage_mem (images : List String) (fps : List ImageFingerprint)
    (policy : SelectionPolicy) (h : images ≠ []) :
    selectBestImage images fps policy ∈ images := by
  match images with
  | [] => exact absurd rfl h
  | best0 :: restImages =>
    unfold selectBestImage
    have key : ∀ (l : List String) (acc : String × ℚ), acc.1 ∈ best0 :: restImages →
        (∀ i ∈ l, i ∈ best0 :: restImages) →
        (l.foldl (selectStep fps policy) acc).1 ∈ best0 :: restImages := by
      intro l
      induction l with
      | nil => intro acc hacc _; exact hacc
      | cons a rest ih =>
        intro acc hacc hsub
        have hstep : (selectStep fps policy acc a).1 ∈ best0 :: restImages := by
          unfold selectStep
          match fpFind fps a with
          | none => exact hacc
          | some fp =>
            dsimp only
            split
            · exact hsub a (List.mem_cons_self a rest)
            · exact hacc
        exact ih (selectStep fps policy acc a) hstep
          (fun i hi => hsub i (List.mem_cons_of_mem a hi))
    exact key restImages (best0, calculateImageScore (fpMapGet fps best0) policy)
      (List.mem_cons_self _ _) (fun i hi => List.mem_cons_of_mem best0 hi)

theorem removeElement_subset (slice : List String) (element : String) :
    ∀ i ∈ removeElement slice element, i ∈ slice := by
  intro i hi
  exact List.mem_of_mem_filter hi

theorem mem_removeElement (slice : List String) (element i : String) :
    i ∈ removeElement slice element ↔ i ∈ slice ∧ i ≠ element := by
  simp [removeElement]

theorem fpFind_isSome (fps : List ImageFingerprint) (i : String) :
    (fpFind fps i).isSome ↔ ∃ fp ∈ fps, fp.id = i := by
  unfold fpFind
  rw [List.find?_isSome]
  constructor
  · rintro ⟨fp, hmem, hid⟩
    exact ⟨fp, List.mem_reverse.mp hmem, by simpa using hid⟩
  · rintro ⟨fp, hmem, hid⟩
    exact ⟨fp, List.mem_reverse.mpr hmem, by simpa using hid⟩

/-! ## Pairwise similarity sums and the mean-confidence property (C5). -/

/-- pairSum f l is the sum of `f a b` over all index pairs i < j of `l`. -/
def pairSum {α : Type} (f : α → α → ℚ) : List α → ℚ
  | [] => 0
  | a :: rest => (rest.map (f a)).sum + pairSum f rest

/-- meanPairwiseSimilarity states the claim's "arithmetic mean of the pairwise
similarities over all unordered pairs": the engine comparator's similarity
summed over the `choose n 2` unordered pairs of the id list's fingerprints,
divided by that count. -/
def meanPairwiseSimilarity (fps : List ImageFingerprint) (ids : List String) : ℚ :=
  pairSum (fun i j => compareVal engineComparatorConfig (fpMapGet fps i) (fpMapGet fps j)) ids /
    ((ids.length.choose 2 : ℕ) : ℚ)

theorem pairSum_perm {α : Type} (f : α → α → ℚ) (hf : ∀ a b, f a b = f b a)
    {l1 l2 : List α} (hp : l1.Perm l2) : pairSum f l1 = pairSum f l2 := by
  induction hp with
  | nil => rfl
  | cons a h ih => simp only [pairSum, ih, (h.map (f a)).sum_eq]
  | swap a b l =>
    simp only [pairSum, List.map_cons, List.sum_cons]
    rw [hf b a]
    ring
  | trans h1 h2 ih1 ih2 => exact ih1.trans ih2

theorem kindAccum_comm (w : ℚ) (h1 h2 : ℕ) (f : ℕ → ℕ → ℚ) (acc : ℚ × ℚ)
    (hf : f h1 h2 = f h2 h1) : kindAccum w h1 h2 f acc = kindAccum w h2 h1 f acc := by
  unfold kindAccum
  by_cases h : 0 < w ∧ h1 ≠ 0 ∧ h2 ≠ 0
  · rw [if_pos h, if_pos ⟨h.1, h.2.2, h.2.1⟩, hf]
  · rw [if_neg h, if_neg (fun hc => h ⟨hc.1, hc.2.2, hc.2.1⟩)]

theorem compareAHash_comm (h1 h2 : ℕ) : compareAHash h1 h2 = compareAHash h2 h1 := by
  unfold compareAHash
  rw [hammingDistance_comm]

theorem comparePHash_comm (h1 h2 : ℕ) : comparePHash h1 h2 = comparePHash h2 h1 := by
  unfold comparePHash
  rw [hammingDistance_comm]

theorem compareDHash_comm (h1 h2 : ℕ) : compareDHash h1 h2 = compareDHash h2 h1 := by
  unfold compareDHash
  rw [hammingDistance_comm]

theorem compareWHash_comm (h1 h2 : ℕ) : compareWHash h1 h2 = compareWHash h2 h1 := by
  unfold compareWHash
  rw [hammingDistance_comm]

theorem compareFingerprints_comm (cfg : ComparatorConfig) (fp1 fp2 : ImageFingerprint) :
    compareFingerprints cfg fp1 fp2 = compareFingerprints cfg fp2 fp1 := by
  unfold compareFingerprints
  dsimp only
  rw [kindAccum_comm _ _ _ _ _ (compareAHash_comm _ _),
    kindAccum_comm _ _ _ _ _ (comparePHash_comm _ _),
    kindAccum_comm _ _ _ _ _ (compareDHash_comm _ _),
    kindAccum_comm _ _ _ _ _ (compareWHash_comm _ _)]

theorem compareVal_comm (cfg : ComparatorConfig) (fp1 fp2 : ImageFingerprint) :
    compareVal cfg fp1 fp2 = compareVal cfg fp2 fp1 := by
  unfold compareVal
  rw [compareFingerprints_comm]

theorem confInner_eval (fps : List ImageFingerprint) (i j : String) (acc : ℚ × ℕ)
    (hi : (fpFind fps i).isSome) (hj : (fpFind fps j).isSome) :
    confInner fps i acc j =
      (acc.1 + compareVal engineComparatorConfig (fpMapGet fps i) (fpMapGet fps j),
        acc.2 + 1) := by
  unfold confInner
  obtain ⟨fp1, h1⟩ := Option.isSome_iff_exists.mp hi
  obtain ⟨fp2, h2⟩ := Option.isSome_iff_exists.mp hj
  rw [h1, h2]
  dsimp only
  rw [compareFingerprints_eq_ok]
  simp [fpMapGet, h1, h2]

theorem confInner_fold (fps : List ImageFingerprint) (i : String) (rest : List String)
    (hi : (fpFind fps i).isSome) (hrest : ∀ j ∈ rest, (fpFind fps j).isSome) :
    ∀ acc : ℚ × ℕ,
      rest.foldl (confInner fps i) acc =
        (acc.1 + ((rest.map (fun j =>
            compareVal engineComparatorConfig (fpMapGet fps i) (fpMapGet fps j))).sum),
          acc.2 + rest.length) := by
  induction rest with
  | nil => intro acc; simp
  | cons j rest ih =>
    intro acc
    rw [List.foldl_cons,
      confInner_eval fps i j acc hi (hrest j (List.mem_cons_self j rest)),
      ih (fun j' hj' => hrest j' (List.mem_cons_of_mem j hj'))]
    simp only [List.map_cons, List.sum_cons, List.length_cons, Prod.mk.injEq]
    exact ⟨by ring, by omega⟩

theorem confLoop_eval (fps : List ImageFingerprint) :
    ∀ (ids : List String), (∀ i ∈ ids, (fpFind fps i).isSome) →
      ∀ acc : ℚ × ℕ,
        confLoop fps ids acc =
          (acc.1 + pairSum (fun i j =>
              compareVal engineComparatorConfig (fpMapGet fps i) (fpMapGet fps j)) ids,
            acc.2 + ids.length.choose 2) := by
  intro ids
  induction ids with
  | nil => intro _ acc; simp [confLoop, pairSum]
  | cons i rest ih =>
    intro hall acc
    rw [show confLoop fps (i :: rest) acc = confLoop fps rest (rest.foldl (confInner fps i) acc)
      from rfl]
    rw [confInner_fold fps i rest (hall i (List.mem_cons_self i rest))
      (fun j hj => hall j (List.mem_cons_of_mem i hj))]
    rw [ih (fun j hj => hall j (List.mem_cons_of_mem i hj))]
    rw [Prod.mk.injEq]
    refine ⟨?_, ?_⟩
    · show acc.1 + _ + _ = acc.1 + pairSum _ (i :: rest)
      rw [pairSum]
      ring
    · show acc.2 + _ + _ = acc.2 + (i :: rest).length.choose 2
      rw [List.length_cons,
        show (rest.length + 1).choose 2 = rest.length.choose 1 + rest.length.choose 2 from
          Nat.choose_succ_succ rest.length 1,
        Nat.choose_one_right]
      omega

theorem calculateGroupConfidence_eval (images : List String) (fps : List ImageFingerprint)
    (hlen : 2 ≤ images.length) (hall : ∀ i ∈ images, (fpFind fps i).isSome) :
    calculateGroupConfidence images fps = meanPairwiseSimilarity fps images := by
  unfold calculateGroupConfidence meanPairwiseSimilarity
  rw [if_neg (by omega)]
  rw [confLoop_eval fps images hall (0, 0)]
  have hchoose : images.length.choose 2 ≠ 0 := by
    have : 0 < images.length.choose 2 := Nat.choose_pos hlen
    omega
  simp only [zero_add]
  rw [if_neg hchoose]

theorem collectSimilar_snd (θ : ℚ) (fp1 : ImageFingerprint) :
    ∀ (l : List ImageFingerprint) (processed : List String),
      (collectSimilar θ fp1 l processed).2 =
        processed ++ (collectSimilar θ fp1 l processed).1 := by
  intro l
  induction l with
  | nil => intro processed; simp [collectSimilar]
  | cons fp2 rest ih =>
    intro processed
    rw [collectSimilar]
    by_cases hmem : fp2.id ∈ processed
    · rw [if_pos hmem]
      exact ih processed
    · rw [if_neg hmem, compareFingerprints_eq_ok]
      dsimp only
      by_cases hθ : compareVal engineComparatorConfig fp1 fp2 ≥ θ
      · rw [if_pos hθ]
        dsimp only
        rw [ih (processed ++ [fp2.id])]
        simp
      · rw [if_neg hθ]
        exact ih processed

theorem collectSimilar_fresh (θ : ℚ) (fp1 : ImageFingerprint) :
    ∀ (l : List ImageFingerprint) (processed : List String),
      (∀ i ∈ (collectSimilar θ fp1 l processed).1, i ∉ processed) ∧
        (collectSimilar θ fp1 l processed).1.Nodup ∧
        (∀ i ∈ (collectSimilar θ fp1 l processed).1, ∃ fp ∈ l, fp.id = i) := by
  intro l
  induction l with
  | nil => intro processed; simp [collectSimilar]
  | cons fp2 rest ih =>
    intro processed
    rw [collectSimilar]
    by_cases hmem : fp2.id ∈ processed
    · rw [if_pos hmem]
      obtain ⟨h1, h2, h3⟩ := ih processed
      exact ⟨h1, h2, fun i hi =>
        (h3 i hi).elim (fun fp hfp => ⟨fp, List.mem_cons_of_mem fp2 hfp.1, hfp.2⟩)⟩
    · rw [if_neg hmem, compareFingerprints_eq_ok]
      dsimp only
      by_cases hθ : compareVal engineComparatorConfig fp1 fp2 ≥ θ
      · rw [if_pos hθ]
        dsimp only
        obtain ⟨h1, h2, h3⟩ := ih (processed ++ [fp2.id])
        refine ⟨?_, ?_, ?_⟩
        · intro i hi
          rcases List.mem_cons.mp hi with hi1 | hi2
          · rw [hi1]; exact hmem
          · intro hip
            exact h1 i hi2 (List.mem_append_left _ hip)
        · refine List.nodup_cons.mpr ⟨?_, h2⟩
          intro hcon
          exact h1 fp2.id hcon (List.mem_append_right _ (List.mem_singleton.mpr rfl))
        · intro i hi
          rcases List.mem_cons.mp hi with hi1 | hi2
          · exact ⟨fp2, List.mem_cons_self fp2 rest, hi1.symm⟩
          · exact (h3 i hi2).elim (fun fp hfp => ⟨fp, List.mem_cons_of_mem fp2 hfp.1, hfp.2⟩)
      · rw [if_neg hθ]
        obtain ⟨h1, h2, h3⟩ := ih processed
        exact ⟨h1, h2, fun i hi =>
          (h3 i hi).elim (fun fp hfp => ⟨fp, List.mem_cons_of_mem fp2 hfp.1, hfp.2⟩)⟩

theorem nearLoop_groups_spec (θ : ℚ) (fps : List ImageFingerprint) :
    ∀ (l : List ImageFingerprint) (processed : List String) (counter : ℕ),
      (∀ fp ∈ l, fp ∈ fps) →
      ∀ g ∈ nearLoop θ fps l processed counter,
        ∃ sim : List String,
          g.mainImage = selectBestImage sim fps SelectionPolicy.highestQuality ∧
          g.duplicateIDs = removeElement sim g.mainImage ∧
          g.confidence = calculateGroupConfidence sim fps ∧
          2 ≤ sim.length ∧ sim.Nodup ∧
          ∀ i ∈ sim, (fpFind fps i).isSome := by
  intro l
  induction l with
  | nil => intro processed counter _ g hg; simp [nearLoop] at hg
  | cons fp1 rest ih =>
    intro processed counter hsub g hg
    have hsubrest : ∀ fp ∈ rest, fp ∈ fps := fun fp hfp => hsub fp (List.mem_cons_of_mem _ hfp)
    rw [nearLoop] at hg
    by_cases hmem : fp1.id ∈ processed
    · rw [if_pos hmem] at hg
      exact ih processed counter hsubrest g hg
    · rw [if_neg hmem] at hg
      dsimp only at hg
      by_cases hlen : 1 <
          (fp1.id :: (collectSimilar θ fp1 rest (processed ++ [fp1.id])).1).length
      · rw [if_pos hlen] at hg
        rcases List.mem_cons.mp hg with hg1 | hg2
        · obtain ⟨hfresh, hnd, hsrc⟩ := collectSimilar_fresh θ fp1 rest (processed ++ [fp1.id])
          refine ⟨fp1.id :: (collectSimilar θ fp1 rest (processed ++ [fp1.id])).1,
            ?_, ?_, ?_, ?_, ?_, ?_⟩
          · rw [hg1]
          · rw [hg1]
          · rw [hg1]
          · simpa using hlen
          · refine List.nodup_cons.mpr ⟨?_, hnd⟩
            intro hcon
            exact hfresh fp1.id hcon (List.mem_append_right _ (List.mem_singleton.mpr rfl))
          · intro i hi
            rcases List.mem_cons.mp hi with hi1 | hi2
            · rw [hi1]
              exact (fpFind_isSome fps fp1.id).mpr
                ⟨fp1, hsub fp1 (List.mem_cons_self fp1 rest), rfl⟩
            · obtain ⟨fp, hfpl, hfpid⟩ := hsrc i hi2
              exact (fpFind_isSome fps i).mpr ⟨fp, hsubrest fp hfpl, hfpid⟩
        · exact ih _ _ hsubrest g hg2
      · rw [if_neg hlen] at hg
        exact ih _ _ hsubrest g hg

theorem cons_filter_ne_perm (l : List String) (a : String) (ha : a ∈ l) (hnd : l.Nodup) :
    (a :: l.filter (fun x => x ≠ a)).Perm l := by
  induction l with
  | nil => cases ha
  | cons b rest ih =>
    rcases List.mem_cons.mp ha with h1 | h2
    · subst h1
      have hnotin : a ∉ rest := (List.nodup_cons.mp hnd).1
      have hfilter : (a :: rest).filter (fun x => x ≠ a) = rest := by
        rw [List.filter_cons]
        have hfa : (decide (a ≠ a)) = false := by simp
        rw [hfa]
        simp only [Bool.false_eq_true, if_false]
        exact List.filter_eq_self.mpr (fun x hx => by
          simp only [decide_eq_true_eq]
          exact fun hxa => hnotin (hxa ▸ hx))
      rw [hfilter]
    · have hba : ¬ (b = a) := by
        intro hba
        exact (List.nodup_cons.mp hnd).1 (hba ▸ h2)
      have hfilter : (b :: rest).filter (fun x => x ≠ a) =
          b :: rest.filter (fun x => x ≠ a) := by
        simp [List.filter_cons, hba]
      rw [hfilter]
      exact (List.Perm.swap b a _).trans
        ((ih h2 (List.nodup_cons.mp hnd).2).cons b)

/-- C5: every group emitted by `FindNearDuplicates` has confidence equal to
the arithmetic mean of the engine comparator's pairwise similarities over all
unordered pairs of the group's members (main image included). -/
theorem near_group_confidence (fps : List ImageFingerprint) (θ : ℚ) (g : DuplicateGroup)
    (hg : g ∈ findNearDuplicates fps θ) :
    g.confidence = meanPairwiseSimilarity fps (groupMemberIDs g) := by
  obtain ⟨sim, hmain, hdup, hconf, hlen, hnodup, hsome⟩ :=
    nearLoop_groups_spec θ fps fps [] 0 (fun _ h => h) g hg
  have hsimne : sim ≠ [] := by
    intro h
    rw [h] at hlen
    simp at hlen
  have hmem : g.mainImage ∈ sim := by
    rw [hmain]
    exact selectBestImage_mem sim fps SelectionPolicy.highestQuality hsimne
  have hperm : (groupMemberIDs g).Perm sim := by
    rw [groupMemberIDs, hdup]
    exact cons_filter_ne_perm sim g.mainImage hmem hnodup
  have hsym : ∀ a b,
      compareVal engineComparatorConfig (fpMapGet fps a) (fpMapGet fps b) =
        compareVal engineComparatorConfig (fpMapGet fps b) (fpMapGet fps a) :=
    fun a b => compareVal_comm engineComparatorConfig _ _
  rw [hconf, calculateGroupConfidence_eval sim fps hlen hsome]
  unfold meanPairwiseSimilarity
  rw [pairSum_perm _ hsym hperm, hperm.length_eq]

/-- fpX and fpY carry the same single non-zero a_hash under distinct ids. -/
def fpX : ImageFingerprint :=
  { zeroFingerprint with
    id := "x"
    pHashes := { aHash := 1, pHash := 0, dHash := 0, wHash := 0 } }

def fpY : ImageFingerprint :=
  { zeroFingerprint with
    id := "y"
    pHashes := { aHash := 1, pHash := 0, dHash := 0, wHash := 0 } }

def fpsW : List ImageFingerprint := [fpX, fpY]

/-- gW is the single group `FindNearDuplicates` emits on `fpsW`. -/
def gW : DuplicateGroup :=
  { groupID := "near_0", mainImage := "x", duplicateIDs := ["y"], reason := "near",
    confidence := 1 }

theorem compareVal_fpXY : compareVal engineComparatorConfig fpX fpY = 1 :=
  compareVal_same_hashes fpX fpY rfl (Or.inl (by decide))

theorem collectSimilar_W :
    collectSimilar (4/5) fpX [fpY] ["x"] = (["y"], ["x", "y"]) := by
  rw [collectSimilar]
  rw [if_neg (by decide)]
  rw [compareFingerprints_eq_ok]
  dsimp only
  rw [compareVal_fpXY]
  rw [if_pos (by norm_num)]
  rfl

theorem selectBestImage_W :
    selectBestImage ["x", "y"] fpsW SelectionPolicy.highestQuality = "x" := by
  unfold selectBestImage
  dsimp only
  rw [show fpMapGet fpsW "x" = fpX from rfl,
    show calculateImageScore fpX SelectionPolicy.highestQuality = 0 from rfl]
  dsimp only [List.foldl]
  unfold selectStep
  rw [show fpFind fpsW "y" = some fpY from rfl]
  dsimp only
  rw [show calculateImageScore fpY SelectionPolicy.highestQuality = 0 from rfl]
  rw [if_neg (by norm_num)]

theorem calculateGroupConfidence_W : calculateGroupConfidence ["x", "y"] fpsW = 1 := by
  have hsome : ∀ i ∈ ["x", "y"], (fpFind fpsW i).isSome := by decide
  rw [calculateGroupConfidence_eval ["x", "y"] fpsW (by decide) hsome]
  unfold meanPairwiseSimilarity
  rw [show ((["x", "y"] : List String).length.choose 2 : ℕ) = 1 from rfl]
  simp only [pairSum, List.map_cons, List.map_nil, List.sum_cons, List.sum_nil]
  rw [show fpMapGet fpsW "x" = fpX from rfl, show fpMapGet fpsW "y" = fpY from rfl,
    compareVal_fpXY]
  norm_num

theorem findNearDuplicates_W : findNearDuplicates fpsW (4/5) = [gW] := by
  unfold findNearDuplicates
  rw [show fpsW = [fpX, fpY] from rfl, nearLoop]
  rw [if_neg (by decide)]
  dsimp only
  rw [show fpX.id = "x" from rfl]
  rw [show ([] : List String) ++ ["x"] = ["x"] from rfl, collectSimilar_W]
  dsimp only
  rw [if_pos (by decide)]
  rw [show [fpX, fpY] = fpsW from rfl]
  rw [selectBestImage_W, calculateGroupConfidence_W]
  rw [nearLoop]
  rw [if_pos (by decide)]
  rw [nearLoop]
  rfl

/-- Witness for C5: on the concrete list `fpsW` the single emitted group `gW`
has confidence 1, the mean pairwise similarity of its two members. -/
theorem near_group_confidence_witness :
    gW ∈ findNearDuplicates fpsW (4/5) ∧
      gW.confidence = meanPairwiseSimilarity fpsW (groupMemberIDs gW) :=
  have hmem : gW ∈ findNearDuplicates fpsW (4/5) := by
    rw [findNearDuplicates_W]
    exact List.mem_singleton.mpr rfl
  ⟨hmem, near_group_confidence fpsW (4/5) gW hmem⟩

/-! ## Group disjointness (C8). -/

/-- GroupsDisjoint: the id-sets (main image plus duplicates) of the listed
groups are pairwise disjoint. -/
def GroupsDisjoint (gs : List DuplicateGroup) : Prop :=
  gs.Pairwise (fun g1 g2 => ∀ x ∈ groupMemberIDs g1, x ∉ groupMemberIDs g2)

theorem groupMemberIDs_subset (sim : List String) (fps : List ImageFingerprint)
    (counter : ℕ) (hne : sim ≠ []) :
    ∀ x ∈ groupMemberIDs
      { groupID := "near_" ++ toString counter
        mainImage := selectBestImage sim fps SelectionPolicy.highestQuality
        duplicateIDs := removeElement sim
          (selectBestImage sim fps SelectionPolicy.highestQuality)
        reason := "near"
        confidence := calculateGroupConfidence sim fps }, x ∈ sim := by
  intro x hx
  rcases List.mem_cons.mp hx with h1 | h2
  · rw [h1]
    exact selectBestImage_mem sim fps SelectionPolicy.highestQuality hne
  · exact removeElement_subset sim _ x h2

theorem nearLoop_disjoint (θ : ℚ) (fps : List ImageFingerprint) :
    ∀ (l : List ImageFingerprint) (processed : List String) (counter : ℕ),
      (∀ g ∈ nearLoop θ fps l processed counter, ∀ x ∈ groupMemberIDs g, x ∉ processed) ∧
        GroupsDisjoint (nearLoop θ fps l processed counter) := by
  intro l
  induction l with
  | nil =>
    intro processed counter
    refine ⟨?_, ?_⟩
    · intro g hg
      simp [nearLoop] at hg
    · simp [nearLoop, GroupsDisjoint]
  | cons fp1 rest ih =>
    intro processed counter
    by_cases hmem : fp1.id ∈ processed
    · rw [show nearLoop θ fps (fp1 :: rest) processed counter =
        nearLoop θ fps rest processed counter from by rw [nearLoop, if_pos hmem]]
      exact ih processed counter
    · have hC2 : (collectSimilar θ fp1 rest (processed ++ [fp1.id])).2 =
          (processed ++ [fp1.id]) ++ (collectSimilar θ fp1 rest (processed ++ [fp1.id])).1 :=
        collectSimilar_snd θ fp1 rest (processed ++ [fp1.id])
      have hfresh := (collectSimilar_fresh θ fp1 rest (processed ++ [fp1.id])).1
      have hsimsub : ∀ x ∈ fp1.id :: (collectSimilar θ fp1 rest (processed ++ [fp1.id])).1,
          x ∈ (collectSimilar θ fp1 rest (processed ++ [fp1.id])).2 := by
        intro x hx
        rw [hC2]
        rcases List.mem_cons.mp hx with h1 | h2
        · exact List.mem_append_left _ (List.mem_append_right _ (List.mem_singleton.mpr h1))
        · exact List.mem_append_right _ h2
      have hsimfresh : ∀ x ∈ fp1.id :: (collectSimilar θ fp1 rest (processed ++ [fp1.id])).1,
          x ∉ processed := by
        intro x hx
        rcases List.mem_cons.mp hx with h1 | h2
        · rw [h1]; exact hmem
        · intro hxp
          exact hfresh x h2 (List.mem_append_left _ hxp)
      have hproc2 : ∀ x ∈ processed,
          x ∈ (collectSimilar θ fp1 rest (processed ++ [fp1.id])).2 := by
        intro x hx
        rw [hC2]
        exact List.mem_append_left _ (List.mem_append_left _ hx)
      by_cases hlen : 1 < (fp1.id :: (collectSimilar θ fp1 rest (processed ++ [fp1.id])).1).length
      · rw [show nearLoop θ fps (fp1 :: rest) processed counter =
          { groupID := "near_" ++ toString counter
            mainImage := selectBestImage
              (fp1.id :: (collectSimilar θ fp1 rest (processed ++ [fp1.id])).1) fps
              SelectionPolicy.highestQuality
            duplicateIDs := removeElement
              (fp1.id :: (collectSimilar θ fp1 rest (processed ++ [fp1.id])).1)
              (selectBestImage
                (fp1.id :: (collectSimilar θ fp1 rest (processed ++ [fp1.id])).1) fps
                SelectionPolicy.highestQuality)
            reason := "near"
            confidence := calculateGroupConfidence
              (fp1.id :: (collectSimilar θ fp1 rest (processed ++ [fp1.id])).1) fps } ::
            nearLoop θ fps rest (collectSimilar θ fp1 rest (processed ++ [fp1.id])).2
              (counter + 1) from by rw [nearLoop, if_neg hmem]; dsimp only; rw [if_pos hlen]]
        have hmemsub := groupMemberIDs_subset
          (fp1.id :: (collectSimilar θ fp1 rest (processed ++ [fp1.id])).1) fps counter
          (List.cons_ne_nil _ _)
        obtain ⟨ihA, ihB⟩ := ih (collectSimilar θ fp1 rest (processed ++ [fp1.id])).2 (counter + 1)
        constructor
        · intro g hg x hx
          rcases List.mem_cons.mp hg with hg1 | hg2
          · exact hsimfresh x (hmemsub x (hg1 ▸ hx))
          · intro hxp
            exact ihA g hg2 x hx (hproc2 x hxp)
        · refine List.Pairwise.cons ?_ ihB
          intro g2 hg2 x hx hx2
          exact ihA g2 hg2 x hx2 (hsimsub x (hmemsub x hx))
      · rw [show nearLoop θ fps (fp1 :: rest) processed counter =
          nearLoop θ fps rest (collectSimilar θ fp1 rest (processed ++ [fp1.id])).2 counter
          from by rw [nearLoop, if_neg hmem]; dsimp only; rw [if_neg hlen]]
        obtain ⟨ihA, ihB⟩ := ih (collectSimilar θ fp1 rest (processed ++ [fp1.id])).2 counter
        refine ⟨?_, ihB⟩
        intro g hg x hx hxp
        exact ihA g hg x hx (hproc2 x hxp)

theorem mem_upsertAppend (m : List (String × List String)) (k : String) (v : String) :
    ∀ e ∈ upsertAppend m k v, ∀ i ∈ e.2,
      (e.1 = k ∧ i = v) ∨ ∃ e0 ∈ m, e0.1 = e.1 ∧ i ∈ e0.2 := by
  induction m with
  | nil =>
    intro e he i hi
    rw [upsertAppend] at he
    rcases List.mem_singleton.mp he with rfl
    rcases List.mem_singleton.mp hi with rfl
    exact Or.inl ⟨rfl, rfl⟩
  | cons e0 rest ih =>
    intro e he i hi
    rw [upsertAppend] at he
    by_cases hk : e0.1 = k
    · rw [if_pos hk] at he
      rcases List.mem_cons.mp he with he1 | he2
      · rw [he1] at hi ⊢
        dsimp only at hi ⊢
        rcases List.mem_append.mp hi with hi1 | hi2
        · exact Or.inr ⟨e0, List.mem_cons_self _ _, rfl, hi1⟩
        · exact Or.inl ⟨hk, List.mem_singleton.mp hi2⟩
      · exact Or.inr ⟨e, List.mem_cons_of_mem _ he2, rfl, hi⟩
    · rw [if_neg hk] at he
      rcases List.mem_cons.mp he with he1 | he2
      · refine Or.inr ⟨e0, List.mem_cons_self _ _, ?_, ?_⟩
        · rw [he1]
        · rw [he1] at hi
          exact hi
      · rcases ih e he2 i hi with h1 | ⟨e1, he1, hee⟩
        · exact Or.inl h1
        · exact Or.inr ⟨e1, List.mem_cons_of_mem _ he1, hee⟩

theorem upsertAppend_keys (m : List (String × List String)) (k : String) (v : String) :
    (upsertAppend m k v).map Prod.fst =
      if k ∈ m.map Prod.fst then m.map Prod.fst else m.map Prod.fst ++ [k] := by
  induction m with
  | nil => simp [upsertAppend]
  | cons e0 rest ih =>
    obtain ⟨a, b⟩ := e0
    rw [upsertAppend]
    by_cases hk : a = k
    · subst hk
      simp
    · dsimp only
      rw [if_neg hk]
      by_cases hmem : k ∈ rest.map Prod.fst
      · simp only [List.map_cons, ih, if_pos hmem]
        rw [if_pos (List.mem_cons_of_mem a hmem)]
      · simp only [List.map_cons, ih, if_neg hmem]
        rw [if_neg (by
          intro hcon
          rcases List.mem_cons.mp hcon with h1 | h2
          · exact hk h1.symm
          · exact hmem h2)]
        simp

theorem foldl_upsert_mem (P : String → String → Prop) :
    ∀ (l : List ImageFingerprint) (m : List (String × List String)),
      (∀ e ∈ m, ∀ i ∈ e.2, P e.1 i) →
      (∀ fp ∈ l, P fp.metadata.sha256 fp.id) →
      ∀ e ∈ l.foldl (fun m fp => upsertAppend m fp.metadata.sha256 fp.id) m,
        ∀ i ∈ e.2, P e.1 i := by
  intro l
  induction l with
  | nil => intro m hm _ e he; exact hm e he
  | cons fp rest ih =>
    intro m hm hl e he i hi
    rw [List.foldl_cons] at he
    refine ih (upsertAppend m fp.metadata.sha256 fp.id) ?_
      (fun fp' hfp' => hl fp' (List.mem_cons_of_mem _ hfp')) e he i hi
    intro e' he' i' hi'
    rcases mem_upsertAppend m fp.metadata.sha256 fp.id e' he' i' hi' with ⟨hk, hv⟩ | ⟨e0, he0, hke, hie⟩
    · rw [hv, hk]
      exact hl fp (List.mem_cons_self _ _)
    · rw [← hke]
      exact hm e0 he0 i' hie

theorem hashGroups_mem (fps : List ImageFingerprint) :
    ∀ e ∈ hashGroups fps, ∀ i ∈ e.2,
      ∃ fp ∈ fps, fp.id = i ∧ fp.metadata.sha256 = e.1 := by
  exact foldl_upsert_mem (fun k i => ∃ fp ∈ fps, fp.id = i ∧ fp.metadata.sha256 = k) fps []
    (by intro e he; cases he)
    (fun fp hfp => ⟨fp, hfp, rfl, rfl⟩)

theorem foldl_upsert_keys_nodup :
    ∀ (l : List ImageFingerprint) (m : List (String × List String)),
      (m.map Prod.fst).Nodup →
      ((l.foldl (fun m fp => upsertAppend m fp.metadata.sha256 fp.id) m).map Prod.fst).Nodup := by
  intro l
  induction l with
  | nil => intro m hm; exact hm
  | cons fp rest ih =>
    intro m hm
    rw [List.foldl_cons]
    refine ih _ ?_
    rw [upsertAppend_keys]
    by_cases hmem : fp.metadata.sha256 ∈ m.map Prod.fst
    · rw [if_pos hmem]; exact hm
    · rw [if_neg hmem]
      rw [List.nodup_append]
      exact ⟨hm, List.nodup_singleton _, by
        intro a ha hb
        rw [List.mem_singleton.mp hb] at ha
        exact hmem ha⟩

theorem hashGroups_keys_nodup (fps : List ImageFingerprint) :
    ((hashGroups fps).map Prod.fst).Nodup :=
  foldl_upsert_keys_nodup fps [] (by simp)

theorem hashGroups_classes_disjoint (fps : List ImageFingerprint)
    (h : (fps.map (fun fp => fp.id)).Nodup) :
    (hashGroups fps).Pairwise (fun e1 e2 => ∀ x ∈ e1.2, x ∉ e2.2) := by
  have hkeys : (hashGroups fps).Pairwise (fun e1 e2 => e1.1 ≠ e2.1) :=
    (List.pairwise_map.mp (hashGroups_keys_nodup fps))
  have hinj : ∀ fp1 ∈ fps, ∀ fp2 ∈ fps, fp1.id = fp2.id → fp1 = fp2 :=
    fun fp1 h1 fp2 h2 heq => List.inj_on_of_nodup_map h h1 h2 heq
  refine hkeys.imp_of_mem ?_
  intro e1 e2 he1 he2 hne x hx1 hx2
  obtain ⟨fp1, hfp1, hid1, hsha1⟩ := hashGroups_mem fps e1 he1 x hx1
  obtain ⟨fp2, hfp2, hid2, hsha2⟩ := hashGroups_mem fps e2 he2 x hx2
  have : fp1 = fp2 := hinj fp1 hfp1 fp2 hfp2 (hid1.trans hid2.symm)
  exact hne (hsha1 ▸ hsha2 ▸ congrArg (fun fp => fp.metadata.sha256) this)

theorem exactLoop_members (fps : List ImageFingerprint) :
    ∀ (entries : List (String × List String)) (counter : ℕ),
      ∀ g ∈ exactLoop fps entries counter,
        ∃ e ∈ entries, ∀ x ∈ groupMemberIDs g, x ∈ e.2 := by
  intro entries
  induction entries with
  | nil => intro counter g hg; simp [exactLoop] at hg
  | cons entry rest ih =>
    intro counter g hg
    rw [exactLoop] at hg
    by_cases hlen : 1 < entry.2.length
    · rw [if_pos hlen] at hg
      rcases List.mem_cons.mp hg with hg1 | hg2
      · refine ⟨entry, List.mem_cons_self _ _, ?_⟩
        intro x hx
        rw [hg1] at hx
        rcases List.mem_cons.mp hx with h1 | h2
        · rw [h1]
          exact selectBestImage_mem entry.2 fps SelectionPolicy.highestQuality
            (by intro hnil; rw [hnil] at hlen; simp at hlen)
        · exact removeElement_subset entry.2 _ x h2
      · obtain ⟨e, he, hsub⟩ := ih (counter + 1) g hg2
        exact ⟨e, List.mem_cons_of_mem _ he, hsub⟩
    · rw [if_neg hlen] at hg
      obtain ⟨e, he, hsub⟩ := ih counter g hg
      exact ⟨e, List.mem_cons_of_mem _ he, hsub⟩

theorem exactLoop_disjoint (fps : List ImageFingerprint) :
    ∀ (entries : List (String × List String)) (counter : ℕ),
      entries.Pairwise (fun e1 e2 => ∀ x ∈ e1.2, x ∉ e2.2) →
      GroupsDisjoint (exactLoop fps entries counter) := by
  intro entries
  induction entries with
  | nil => intro counter _; simp [exactLoop, GroupsDisjoint]
  | cons entry rest ih =>
    intro counter hpw
    obtain ⟨hhead, hrest⟩ := List.pairwise_cons.mp hpw
    rw [exactLoop]
    by_cases hlen : 1 < entry.2.length
    · rw [if_pos hlen]
      refine List.Pairwise.cons ?_ (ih (counter + 1) hrest)
      intro g2 hg2 x hx hx2
      obtain ⟨e2, he2, hsub2⟩ := exactLoop_members fps rest (counter + 1) g2 hg2
      have hxentry : x ∈ entry.2 := by
        rcases List.mem_cons.mp hx with h1 | h2
        · rw [h1]
          exact selectBestImage_mem entry.2 fps SelectionPolicy.highestQuality
            (by intro hnil; rw [hnil] at hlen; simp at hlen)
        · exact removeElement_subset entry.2 _ x h2
      exact hhead e2 he2 x hxentry (hsub2 x hx2)
    · rw [if_neg hlen]
      exact ih counter hrest

/-- C8: for a fingerprint list with pairwise-distinct ids (which every index
state yields, the primary bucket being keyed by id), the groups returned by
one `FindExactDuplicates` call have pairwise-disjoint id-sets (main image
counted with the duplicates), and likewise the groups of one
`FindNearDuplicates` call at any threshold. -/
theorem duplicate_groups_disjoint (fps : List ImageFingerprint) (θ : ℚ)
    (h : (fps.map (fun fp => fp.id)).Nodup) :
    GroupsDisjoint (findExactDuplicates fps) ∧ GroupsDisjoint (findNearDuplicates fps θ) :=
  ⟨exactLoop_disjoint fps (hashGroups fps) 0 (hashGroups_classes_disjoint fps h),
    (nearLoop_disjoint θ fps fps [] 0).2⟩

/-- Witness for C8 at the concrete two-fingerprint list `fpsW`. -/
theorem duplicate_groups_disjoint_witness :
    (fpsW.map (fun fp => fp.id)).Nodup ∧
      GroupsDisjoint (findExactDuplicates fpsW) ∧
        GroupsDisjoint (findNearDuplicates fpsW (4/5)) :=
  ⟨by decide, duplicate_groups_disjoint fpsW (4/5) (by decide)⟩

/-! ## Quality analyzer (`quality.Analyzer`, analyzer.go).  The kernels read
the 8-bit grayscale buffer produced by `toGray` and the RGB buffer (16-bit
channels as Go's `RGBA()` returns them); bounds start at (0,0).  Because the
noise and contrast kernels call `math.Sqrt`, these kernels are embedded over
`ℝ`. -/

open scoped Classical

/-- GrayImage is the `image.Gray` buffer: width, height, and the byte at
(x, y). -/
structure GrayImage where
  w : ℕ
  h : ℕ
  pix : ℕ → ℕ → ℕ

/-- RGBImage is the decoded RGB buffer; channels are on the 16-bit `RGBA()`
scale 0..65535. -/
structure RGBImage where
  w : ℕ
  h : ℕ
  r : ℕ → ℕ → ℕ
  g : ℕ → ℕ → ℕ
  b : ℕ → ℕ → ℕ

/-- analyzeSharpness embeds `Analyzer.analyzeSharpness`: mean absolute
Laplacian over interior pixels, divided by 100, clamped to 1; undersized
images yield 0 (the error value the caller keeps). -/
noncomputable def analyzeSharpness (img : GrayImage) : ℝ :=
  if img.w < 3 ∨ img.h < 3 then 0
  else
    let sum := Finset.sum (Finset.Ico 1 (img.h - 1)) (fun y =>
      Finset.sum (Finset.Ico 1 (img.w - 1)) (fun x =>
        |4 * (img.pix x y : ℝ) -
          ((img.pix x (y - 1) : ℝ) + (img.pix x (y + 1) : ℝ) +
            (img.pix (x - 1) y : ℝ) + (img.pix (x + 1) y : ℝ))|))
    let count := (img.w - 2) * (img.h - 2)
    if count = 0 then 0
    else min (sum / (count : ℝ) / 100) 1

/-- neighborMean is the mean of the eight neighbors of (x, y) in
`Analyzer.analyzeNoise`. -/
noncomputable def neighborMean (img : GrayImage) (x y : ℕ) : ℝ :=
  ((img.pix (x - 1) (y - 1) : ℝ) + (img.pix x (y - 1) : ℝ) + (img.pix (x + 1) (y - 1) : ℝ) +
    (img.pix (x - 1) y : ℝ) + (img.pix (x + 1) y : ℝ) +
    (img.pix (x - 1) (y + 1) : ℝ) + (img.pix x (y + 1) : ℝ) +
    (img.pix (x + 1) (y + 1) : ℝ)) / 8

/-- neighborVariance is the variance of the eight neighbors of (x, y) in
`Analyzer.analyzeNoise`. -/
noncomputable def neighborVariance (img : GrayImage) (x y : ℕ) : ℝ :=
  (((img.pix (x - 1) (y - 1) : ℝ) - neighborMean img x y) ^ 2 +
    ((img.pix x (y - 1) : ℝ) - neighborMean img x y) ^ 2 +
    ((img.pix (x + 1) (y - 1) : ℝ) - neighborMean img x y) ^ 2 +
    ((img.pix (x - 1) y : ℝ) - neighborMean img x y) ^ 2 +
    ((img.pix (x + 1) y : ℝ) - neighborMean img x y) ^ 2 +
    ((img.pix (x - 1) (y + 1) : ℝ) - neighborMean img x y) ^ 2 +
    ((img.pix x (y + 1) : ℝ) - neighborMean img x y) ^ 2 +
    ((img.pix (x + 1) (y + 1) : ℝ) - neighborMean img x y) ^ 2) / 8

/-- analyzeNoise embeds `Analyzer.analyzeNoise`: over interior pixels lying in
locally flat regions (|center − neighbor mean| < 10) it averages √variance,
divides by 50 and clamps; with no flat region it returns 0.5; undersized
images yield 0. -/
noncomputable def analyzeNoise (img : GrayImage) : ℝ :=
  if img.w < 3 ∨ img.h < 3 then 0
  else
    let noiseSum := Finset.sum (Finset.Ico 1 (img.h - 1)) (fun y =>
      Finset.sum (Finset.Ico 1 (img.w - 1)) (fun x =>
        if |(img.pix x y : ℝ) - neighborMean img x y| < 10 then
          Real.sqrt (neighborVariance img x y)
        else 0))
    let count : ℕ := Finset.sum (Finset.Ico 1 (img.h - 1)) (fun y =>
      Finset.sum (Finset.Ico 1 (img.w - 1)) (fun x =>
        if |(img.pix x y : ℝ) - neighborMean img x y| < 10 then 1 else 0))
    if count = 0 then 1/2
    else min (noiseSum / (count : ℝ) / 50) 1

/-- analyzeExposure embeds `Analyzer.analyzeExposure`: mean luminance with the
dark-ratio and bright-ratio tail corrections, clamped to [0,1]. -/
noncomputable def analyzeExposure (img : GrayImage) : ℝ :=
  let totalPixels := img.w * img.h
  if totalPixels = 0 then 1/2
  else
    let sum := Finset.sum (Finset.range img.h) (fun y =>
      Finset.sum (Finset.range img.w) (fun x => (img.pix x y : ℝ) / 255))
    let darkPixels : ℕ := Finset.sum (Finset.range img.h) (fun y =>
      Finset.sum (Finset.range img.w) (fun x =>
        if (img.pix x y : ℝ) / 255 < 1/10 then 1 else 0))
    let brightPixels : ℕ := Finset.sum (Finset.range img.h) (fun y =>
      Finset.sum (Finset.range img.w) (fun x =>
        if (img.pix x y : ℝ) / 255 > 9/10 then 1 else 0))
    let avgLuminance := sum / (totalPixels : ℝ)
    let darkRatio := (darkPixels : ℝ) / (totalPixels : ℝ)
    let brightRatio := (brightPixels : ℝ) / (totalPixels : ℝ)
    let e1 := avgLuminance
    let e2 := if darkRatio > 3/10 then e1 - (darkRatio - 3/10) * (1/2) else e1
    let e3 := if brightRatio > 3/10 then e2 + (brightRatio - 3/10) * (1/2) else e2
    max 0 (min 1 e3)

/-- analyzeContrast embeds `Analyzer.analyzeContrast`: standard deviation of
luminance over all pixels, divided by 0.4, clamped. -/
noncomputable def analyzeContrast (img : GrayImage) : ℝ :=
  let totalPixels := img.w * img.h
  if totalPixels = 0 then 1/2
  else
    let sum := Finset.sum (Finset.range img.h) (fun y =>
      Finset.sum (Finset.range img.w) (fun x => (img.pix x y : ℝ) / 255))
    let sumSquares := Finset.sum (Finset.range img.h) (fun y =>
      Finset.sum (Finset.range img.w) (fun x =>
        ((img.pix x y : ℝ) / 255) * ((img.pix x y : ℝ) / 255)))
    let mean := sum / (totalPixels : ℝ)
    let variance := sumSquares / (totalPixels : ℝ) - mean * mean
    let stdDev := Real.sqrt (max 0 variance)
    min (stdDev / (2/5)) 1

/-- analyzeCompression embeds `Analyzer.analyzeCompression`: a placeholder
that returns 0.1 below 100×100 and 0.3 otherwise — no artifact analysis is
performed. -/
noncomputable def analyzeCompression (img : RGBImage) : ℝ :=
  if img.w < 100 ∨ img.h < 100 then 1/10 else 3/10

/-- analyzeColorCast embeds `Analyzer.analyzeColorCast`: per-channel means on
a 4×4-strided sample (note the divisor (w/4+1)·(h/4+1) of the source), then
the normalized distance from neutral. -/
noncomputable def analyzeColorCast (img : RGBImage) : ℝ :=
  let totalPixels := img.w * img.h
  if totalPixels = 0 then 0
  else
    let rSum := Finset.sum (Finset.range ((img.h + 3) / 4)) (fun i =>
      Finset.sum (Finset.range ((img.w + 3) / 4)) (fun j => (img.r (4 * j) (4 * i) : ℝ) / 65535))
    let gSum := Finset.sum (Finset.range ((img.h + 3) / 4)) (fun i =>
      Finset.sum (Finset.range ((img.w + 3) / 4)) (fun j => (img.g (4 * j) (4 * i) : ℝ) / 65535))
    let bSum := Finset.sum (Finset.range ((img.h + 3) / 4)) (fun i =>
      Finset.sum (Finset.range ((img.w + 3) / 4)) (fun j => (img.b (4 * j) (4 * i) : ℝ) / 65535))
    let sampledPixels : ℕ := (img.w / 4 + 1) * (img.h / 4 + 1)
    let rAvg := rSum / (sampledPixels : ℝ)
    let gAvg := gSum / (sampledPixels : ℝ)
    let bAvg := bSum / (sampledPixels : ℝ)
    let maxChannel := max (max rAvg gAvg) bAvg
    if maxChannel = 0 then 0
    else
      Real.sqrt ((1 - rAvg / maxChannel) ^ 2 + (1 - gAvg / maxChannel) ^ 2 +
        (1 - bAvg / maxChannel) ^ 2) / Real.sqrt 3

/-- ImageQualityR is the quality record over `ℝ` filled by `Analyzer.Analyze`. -/
structure ImageQualityR where
  sharpness : ℝ
  noise : ℝ
  exposure : ℝ
  contrast : ℝ
  compression : ℝ
  colorCast : ℝ

/-- calculateFinalScore embeds `Analyzer.calculateFinalScore` with the weight
map {sharpness 0.3, noise 0.25, exposure 0.2, contrast 0.15, compression 0.05,
color_cast 0.05} inlined. -/
noncomputable def calculateFinalScore (q : ImageQualityR) : ℝ :=
  let exposureScore := 1 - |q.exposure - 1/2| * 2
  let score := q.sharpness * (3/10) + (1 - q.noise) * (1/4) + exposureScore * (1/5) +
    q.contrast * (3/20) + (1 - q.compression) * (1/20) + (1 - q.colorCast) * (1/20)
  max 0 (min 100 (score * 100))

/-- analyze embeds `Analyzer.Analyze`: the six kernels on the gray and RGB
buffers of one image. -/
noncomputable def analyze (gray : GrayImage) (rgb : RGBImage) : ImageQualityR :=
  { sharpness := analyzeSharpness gray
    noise := analyzeNoise gray
    exposure := analyzeExposure gray
    contrast := analyzeContrast gray
    compression := analyzeCompression rgb
    colorCast := analyzeColorCast rgb }

/-- grayConst is the 800×600 constant image at luminance byte 128 (the 8-bit
quantization of 0.5). -/
def grayConst : GrayImage := { w := 800, h := 600, pix := fun _ _ => 128 }

/-- rgbConst is the same image's RGB buffer: every 16-bit channel is
128·257 = 32896. -/
def rgbConst : RGBImage :=
  { w := 800, h := 600, r := fun _ _ => 32896, g := fun _ _ => 32896, b := fun _ _ => 32896 }

theorem analyzeSharpness_const : analyzeSharpness grayConst = 0 := by
  unfold analyzeSharpness
  rw [if_neg (by norm_num [grayConst])]
  dsimp only [grayConst]
  rw [Finset.sum_eq_zero (fun y _ => Finset.sum_eq_zero (fun x _ => by norm_num))]
  rw [if_neg (by norm_num)]
  norm_num

theorem neighborMean_const (x y : ℕ) : neighborMean grayConst x y = 128 := by
  unfold neighborMean
  dsimp only [grayConst]
  norm_num

theorem neighborVariance_const (x y : ℕ) : neighborVariance grayConst x y = 0 := by
  unfold neighborVariance
  rw [neighborMean_const]
  dsimp only [grayConst]
  norm_num

theorem analyzeNoise_const : analyzeNoise grayConst = 0 := by
  unfold analyzeNoise
  rw [if_neg (by norm_num [grayConst])]
  dsimp only
  have hflat : ∀ x y, |(grayConst.pix x y : ℝ) - neighborMean grayConst x y| < 10 := by
    intro x y
    rw [neighborMean_const]
    dsimp only [grayConst]
    norm_num
  have hsum0 : Finset.sum (Finset.Ico 1 (grayConst.h - 1)) (fun y =>
      Finset.sum (Finset.Ico 1 (grayConst.w - 1)) (fun x =>
        if |(grayConst.pix x y : ℝ) - neighborMean grayConst x y| < 10 then
          Real.sqrt (neighborVariance grayConst x y)
        else 0)) = 0 := by
    refine Finset.sum_eq_zero (fun y _ => Finset.sum_eq_zero (fun x _ => ?_))
    rw [if_pos (hflat x y), neighborVariance_const, Real.sqrt_zero]
  have hcount : Finset.sum (Finset.Ico 1 (grayConst.h - 1)) (fun y =>
      Finset.sum (Finset.Ico 1 (grayConst.w - 1)) (fun x =>
        if |(grayConst.pix x y : ℝ) - neighborMean grayConst x y| < 10 then 1 else 0)) =
      598 * 798 := by
    rw [Finset.sum_congr rfl (fun y _ => Finset.sum_congr rfl (fun x _ => if_pos (hflat x y)))]
    simp [Finset.sum_const, Nat.card_Ico, grayConst]
  rw [hsum0, hcount]
  rw [if_neg (by norm_num)]
  norm_num

theorem analyzeExposure_const : analyzeExposure grayConst = 128/255 := by
  unfold analyzeExposure
  rw [if_neg (by norm_num [grayConst])]
  dsimp only [grayConst]
  rw [show Finset.sum (Finset.range 600) (fun _ =>
      Finset.sum (Finset.range 800) (fun _ => ((128 : ℕ) : ℝ) / 255)) =
      600 * (800 * (128/255)) from by
    simp only [Finset.sum_const, Finset.card_range, nsmul_eq_mul]
    norm_num]
  rw [Finset.sum_eq_zero (fun y _ => Finset.sum_eq_zero (fun x _ => by
    rw [if_neg (by norm_num)]))]
  rw [Finset.sum_eq_zero (fun y _ => Finset.sum_eq_zero (fun x _ => by
    rw [if_neg (by norm_num)]))]
  rw [if_neg (by norm_num), if_neg (by norm_num)]
  norm_num

theorem analyzeContrast_const : analyzeContrast grayConst = 0 := by
  unfold analyzeContrast
  rw [if_neg (by norm_num [grayConst])]
  dsimp only [grayConst]
  rw [show Finset.sum (Finset.range 600) (fun _ =>
      Finset.sum (Finset.range 800) (fun _ => ((128 : ℕ) : ℝ) / 255)) =
      600 * (800 * (128/255)) from by
    simp only [Finset.sum_const, Finset.card_range, nsmul_eq_mul]
    norm_num]
  rw [show Finset.sum (Finset.range 600) (fun _ =>
      Finset.sum (Finset.range 800) (fun _ => (((128 : ℕ) : ℝ) / 255) * (((128 : ℕ) : ℝ) / 255))) =
      600 * (800 * ((128/255) * (128/255))) from by
    simp only [Finset.sum_const, Finset.card_range, nsmul_eq_mul]
    norm_num]
  rw [show (600 : ℝ) * (800 * (128/255 * (128/255))) / ((800 * 600 : ℕ) : ℝ) -
      600 * (800 * (128/255)) / ((800 * 600 : ℕ) : ℝ) *
        (600 * (800 * (128/255)) / ((800 * 600 : ℕ) : ℝ)) = 0 from by norm_num]
  rw [max_self, Real.sqrt_zero]
  norm_num

theorem analyzeCompression_const : analyzeCompression rgbConst = 3/10 := by
  unfold analyzeCompression
  rw [if_neg (by norm_num [rgbConst])]

theorem analyzeColorCast_const : analyzeColorCast rgbConst = 0 := by
  unfold analyzeColorCast
  rw [if_neg (by norm_num [rgbConst])]
  dsimp only [rgbConst]
  rw [show Finset.sum (Finset.range ((600 + 3) / 4)) (fun _ =>
      Finset.sum (Finset.range ((800 + 3) / 4)) (fun _ => ((32896 : ℕ) : ℝ) / 65535)) =
      150 * (200 * (32896/65535)) from by
    simp only [Finset.sum_const, Finset.card_range, nsmul_eq_mul]
    norm_num]
  have havg : (150 : ℝ) * (200 * (32896/65535)) / (((800 / 4 + 1) * (600 / 4 + 1) : ℕ) : ℝ) ≠ 0 := by
    norm_num
  rw [max_self, max_self]
  rw [if_neg havg]
  rw [div_self havg]
  norm_num [Real.sqrt_zero]

/-- C6: on the 800×600 constant image at luminance byte 128 (the quantized
0.5) the analyzer returns sharpness 0, noise 0, exposure 128/255 ≈ 0.5,
contrast 0 and color cast 0 as the claim says, but compression is the
placeholder 0.3 (not 0: `analyzeCompression` returns 0.3 for any image at
least 100×100), and the composite score is 5449/102 ≈ 53.42, not 55. -/
theorem quality_constant_gray :
    analyzeSharpness grayConst = 0 ∧ analyzeNoise grayConst = 0 ∧
      analyzeExposure grayConst = 128/255 ∧ analyzeContrast grayConst = 0 ∧
      analyzeColorCast rgbConst = 0 ∧ analyzeCompression rgbConst = 3/10 ∧
      analyzeCompression rgbConst ≠ 0 ∧
      calculateFinalScore (analyze grayConst rgbConst) = 5449/102 ∧
      calculateFinalScore (analyze grayConst rgbConst) ≠ 55 := by
  have hfinal : calculateFinalScore (analyze grayConst rgbConst) = 5449/102 := by
    unfold calculateFinalScore analyze
    dsimp only
    rw [analyzeSharpness_const, analyzeNoise_const, analyzeExposure_const,
      analyzeContrast_const, analyzeCompression_const, analyzeColorCast_const]
    rw [show |(128 : ℝ)/255 - 1/2| = 1/510 from by
      rw [show (128 : ℝ)/255 - 1/2 = 1/510 from by norm_num]
      exact abs_of_nonneg (by norm_num)]
    rw [show (0 : ℝ) * (3/10) + (1 - 0) * (1/4) + (1 - 1/510 * 2) * (1/5) + 0 * (3/20) +
        (1 - 3/10) * (1/20) + (1 - 0) * (1/20) = 5449/10200 from by norm_num]
    rw [show min (100 : ℝ) (5449/10200 * 100) = 5449/102 from by
      rw [min_eq_right (by norm_num)]
      norm_num]
    rw [max_eq_right (by norm_num)]
  exact ⟨analyzeSharpness_const, analyzeNoise_const, analyzeExposure_const,
    analyzeContrast_const, analyzeColorCast_const, analyzeCompression_const,
    by rw [analyzeCompression_const]; norm_num, hfinal, by rw [hfinal]; norm_num⟩

end Imaged
